import Mathlib

/-!
Verification of the tabular-to-visualization mapping engine
(table normalization, chart-type advisor, color resolver, dataset mapper)
against its natural-language specification.

The definitions below are shallow embeddings of the TypeScript source:
`parseData` (cell coercion, CSV / fetched-sheet table construction,
Google-Sheet URL rewriting, `suggestChartType`) and the final version of
`ChartRenderer` (color resolution and per-chart-kind dataset mapping).
JavaScript numbers are modelled as rationals (no NaN / Infinity in the
value model; a NaN-producing numeric parse is modelled as `none`).
-/

/-- A canonical table cell: `string | number | null` (a missing object key,
i.e. JS `undefined`, is folded into `null`; both are nullish and neither is
a number nor a string). -/
inductive Cell where
  | num (q : ℚ)
  | str (s : String)
  | null
deriving DecidableEq, Repr

/-- A raw value as handed to the shared coercion function: JS
`null`, `undefined`, a number, or a string. -/
inductive JSValue where
  | vnull
  | vundef
  | vnum (q : ℚ)
  | vstr (s : String)
deriving DecidableEq, Repr

/-- ASCII whitespace recognized by the model of `String.prototype.trim`. -/
def isWS (c : Char) : Bool :=
  c = ' ' || c = '\t' || c = '\n' || c = '\r'

/-- Drop leading and trailing whitespace from a character list. -/
def trimList (l : List Char) : List Char :=
  ((l.dropWhile isWS).reverse.dropWhile isWS).reverse

/-- Model of JS `s.trim()`. -/
def jsTrim (s : String) : String := String.mk (trimList s.data)

/-- Model of JS `s.replace(/,/g, "")`: remove every comma. -/
def stripCommas (s : String) : String :=
  String.mk (s.data.filter (fun c => c ≠ ','))

/-- Numeric value of a digit list (most significant first). -/
def digitsVal (l : List Char) : Nat :=
  l.foldl (fun a c => 10 * a + (c.toNat - 48)) 0

/-- Parse the exponent part after `e`/`E`: optional sign then digits. -/
def parseExp (l : List Char) : Option Int :=
  match l with
  | [] => none
  | c :: rest =>
    if c = '+' then
      if rest ≠ [] ∧ rest.all (·.isDigit) then some (digitsVal rest : Int) else none
    else if c = '-' then
      if rest ≠ [] ∧ rest.all (·.isDigit) then some (-(digitsVal rest : Int)) else none
    else if (c :: rest).all (·.isDigit) then some (digitsVal (c :: rest) : Int)
    else none

/-- Parse an unsigned decimal mantissa: `digits`, `digits.digits?` or `.digits`. -/
def parseMantissa (l : List Char) : Option ℚ :=
  let ip := l.takeWhile (·.isDigit)
  let rest := l.dropWhile (·.isDigit)
  match rest with
  | [] => if ip = [] then none else some (digitsVal ip : ℚ)
  | '.' :: fp =>
    if fp.all (·.isDigit) ∧ (ip ≠ [] ∨ fp ≠ []) then
      some ((digitsVal ip : ℚ) + (digitsVal fp : ℚ) / (10 : ℚ) ^ fp.length)
    else none
  | _ => none

/-- Split a numeric literal at the first `e`/`E` into mantissa and exponent text. -/
def splitExp (l : List Char) : List Char × Option (List Char) :=
  match l.findIdx? (fun c => c = 'e' || c = 'E') with
  | none => (l, none)
  | some i => (l.take i, some (l.drop (i + 1)))

/-- Unsigned decimal literal, with optional exponent. -/
def parseJSNumUnsigned (l : List Char) : Option ℚ :=
  match splitExp l with
  | (m, none) => parseMantissa m
  | (m, some e) =>
    match parseMantissa m, parseExp e with
    | some q, some n =>
      some (q * (if 0 ≤ n then ((10 : ℚ) ^ n.toNat) else 1 / (10 : ℚ) ^ ((-n).toNat)))
    | _, _ => none

/-- Signed decimal literal. -/
def parseJSNum (l : List Char) : Option ℚ :=
  match l with
  | '+' :: rest => parseJSNumUnsigned rest
  | '-' :: rest => (parseJSNumUnsigned rest).map (fun q => -q)
  | _ => parseJSNumUnsigned l

/-- Model of the JS `Number(string)` conversion on the (finite, decimal)
literals relevant here: surrounding whitespace is ignored, the empty string
converts to `0`, and a signed decimal literal with optional fraction and
exponent converts to its value; every other string converts to NaN,
modelled as `none`. -/
def jsNumber (s : String) : Option ℚ :=
  let t := trimList s.data
  if t = [] then some 0 else parseJSNum t

/-- Shallow embedding of `toNumberIfPossible` (parseData):
nullish input gives `null`; a number is returned as is; a string is
trimmed, the empty trim gives `null`, otherwise the comma-stripped trim is
given to `Number(...)` — a non-NaN parse yields that number, else the
trimmed text is kept as a string. -/
def toNumberIfPossible (v : JSValue) : Cell :=
  match v with
  | .vnull => .null
  | .vundef => .null
  | .vnum q => .num q
  | .vstr raw =>
    let s := jsTrim raw
    if s = "" then .null
    else
      match jsNumber (stripCommas s) with
      | some n => .num n
      | none => .str s

/-- Re-inject a produced cell as a raw value (to state idempotence). -/
def jsOfCell : Cell → JSValue
  | .num q => .vnum q
  | .str s => .vstr s
  | .null => .vnull

/-- A row is a JS object: an ordered association list with unique keys. -/
abbrev Row := List (String × Cell)

/-- Canonical table: ordered headers plus rows. -/
structure DataTable where
  headers : List String
  rows : List Row
deriving DecidableEq, Repr

/-- JS property read `r[h]`: the bound value, or nullish if absent. -/
def getCell (r : Row) (h : String) : Cell :=
  match r.find? (fun p => p.1 = h) with
  | some p => p.2
  | none => .null

/-- JS property write `r[k] = v`: overwrite in place if the key exists
(keeping its position), else append the new binding. -/
def objSet (r : Row) (k : String) (v : Cell) : Row :=
  if r.any (fun p => p.1 = k) then r.map (fun p => if p.1 = k then (k, v) else p)
  else r ++ [(k, v)]

/-- The raw value of `r[i]` for a delimited-text record `r`: reading past
the end gives `undefined`, a `none` entry models a `null` cell, otherwise
the cell text. -/
def rawAt (cells : List (Option String)) (i : Nat) : JSValue :=
  match cells.get? i with
  | none => .vundef
  | some none => .vnull
  | some (some s) => .vstr s

/-- The row key used for column `i`: `String(h ?? "col_<i>")`. -/
def headerName (h : Option String) (i : Nat) : String :=
  h.getD ("col_" ++ toString i)

/-- Row construction shared by `parseCSV` and `parseGoogleSheet`:
`header.forEach((h, i) => row[String(h ?? "col_" + i)] = toNumberIfPossible(r[i]))`. -/
def buildRow (header : List (Option String)) (cells : List (Option String)) : Row :=
  header.enum.foldl
    (fun row p => objSet row (headerName p.2 p.1) (toNumberIfPossible (rawAt cells p.1)))
    []

/-- Table construction shared by `parseCSV` and `parseGoogleSheet` once the
delimited text has been split into a header record and data records:
`headers := header.map(h => String(h ?? "col"))`, rows via `buildRow`. -/
def mkDelimTable (header : List (Option String)) (recs : List (List (Option String))) :
    DataTable where
  headers := header.map (fun h => h.getD "col")
  rows := recs.map (buildRow header)

/-- Row construction of `parseXLSX`: the keys are the first record's own
keys and every value passes through the same coercion. -/
def xlsxBuildRow (headers : List String) (get : String → JSValue) : Row :=
  headers.foldl (fun row h => objSet row h (toNumberIfPossible (get h))) []

/-- Is the cell a JS number (`typeof r[h] === "number"`)? -/
def isNumCell : Cell → Bool
  | .num _ => true
  | _ => false

/-- Is the cell a JS string (`typeof r[h] === "string"`)? -/
def isStrCell : Cell → Bool
  | .str _ => true
  | _ => false

/-- Headers with a `Number` cell in some row, in header order. -/
def numericColumns (headers : List String) (rows : List Row) : List String :=
  headers.filter (fun h => rows.any (fun r => isNumCell (getCell r h)))

/-- Headers with a `String` cell in some row, in header order. -/
def categoricalColumns (headers : List String) (rows : List Row) : List String :=
  headers.filter (fun h => rows.any (fun r => isStrCell (getCell r h)))

/-- The closed chart-kind enumeration. -/
inductive ChartKind where
  | column
  | bar
  | line
  | combo
  | pie
  | heatmap
  | table
  | funnel
  | scatter
deriving DecidableEq, Repr

/-- Shallow embedding of `suggestChartType` (parseData). -/
def suggestChartType (headers : List String) (rows : List Row) : ChartKind :=
  if 2 ≤ (numericColumns headers rows).length then .scatter
  else if (numericColumns headers rows).length = 1 ∧
      1 ≤ (categoricalColumns headers rows).length then .column
  else if headers.length ≤ 2 ∧ rows.length ≤ 8 then .pie
  else if 50 < rows.length then .line
  else .table

/-- The chart-type recommendation exactly as the specification words it:
first-match precedence over the numeric-bearing / string-bearing census,
the small-table pie case, the long-table line case, then the table
fallback. Stated separately from the source embedding so the two can be
compared. -/
def advisorSpec (headers : List String) (rows : List Row) : ChartKind :=
  let numBearing := (headers.filter (fun h => rows.any (fun r => isNumCell (getCell r h)))).length
  let strBearing := (headers.filter (fun h => rows.any (fun r => isStrCell (getCell r h)))).length
  if 2 ≤ numBearing then .scatter
  else if numBearing = 1 ∧ 1 ≤ strBearing then .column
  else if headers.length ≤ 2 ∧ rows.length ≤ 8 then .pie
  else if 50 < rows.length then .line
  else .table

/-! ### Color resolution (final `ChartRenderer` version) -/

/-- A resolved concrete color: an `rgba(r, g, b, a)` literal (a component is
`none` when JS `parseInt` would give NaN), an `hsl(<css-var-value> / a)`
reference built from a CSS custom property, or the fixed fallback accent
used when the CSS variable is absent. -/
inductive ResolvedColor where
  | rgba (r g b : Option Nat) (a : ℚ)
  | hsl (v : String) (a : Option ℚ)
  | hexDefault (s : String)
deriving DecidableEq, Repr

/-- The document's computed CSS custom properties:
`name ↦ getComputedStyle(document.documentElement).getPropertyValue(name)`
(an exception in `hslVar` behaves like the empty value). -/
abbrev CssEnv := String → String

/-- Model of `hslVar`: read and trim the CSS variable, fall back to the
fixed accent `"#00e5ff"` when it is empty, otherwise wrap it in `hsl(...)`
with the optional alpha. -/
def hslVar (env : CssEnv) (name : String) (alpha : Option ℚ) : ResolvedColor :=
  let v := jsTrim (env name)
  if v = "" then .hexDefault "#00e5ff" else .hsl v alpha

def hexDigitVal (c : Char) : Option Nat :=
  if '0' ≤ c ∧ c ≤ '9' then some (c.toNat - 48)
  else if 'a' ≤ c ∧ c ≤ 'f' then some (c.toNat - 87)
  else if 'A' ≤ c ∧ c ≤ 'F' then some (c.toNat - 55)
  else none

/-- Model of `parseInt(s, 16)` on a short character run: parse the longest
hex-digit run; no digit at all is NaN (`none`). -/
def parseIntHex (l : List Char) : Option Nat :=
  let ds := l.takeWhile (fun c => (hexDigitVal c).isSome)
  if ds = [] then none
  else some (ds.foldl (fun a c => 16 * a + ((hexDigitVal c).getD 0)) 0)

/-- Model of JS `hex.replace('#', '')`: remove the first occurrence. -/
def removeFirst (x : Char) : List Char → List Char
  | [] => []
  | c :: rest => if c = x then rest else c :: removeFirst x rest

/-- `Math.max(0, Math.min(1, a))`. -/
def clamp01 (a : ℚ) : ℚ := max 0 (min 1 a)

/-- Shallow embedding of `hexToRgba`: strip the first `#`, expand a
3-digit form by doubling each digit, parse the three 2-digit components,
clamp the alpha into `[0, 1]`. -/
def hexToRgba (hex : String) (alpha : ℚ) : ResolvedColor :=
  let h0 := removeFirst '#' hex.data
  let h := if h0.length = 3 then (h0.map (fun c => [c, c])).flatten else h0
  .rgba (parseIntHex (h.take 2)) (parseIntHex ((h.drop 2).take 2))
    (parseIntHex ((h.drop 4).take 2)) (clamp01 alpha)

def neonVars : List String :=
  ["--chart-neon-1", "--chart-neon-2", "--chart-neon-3", "--chart-neon-4", "--chart-neon-5"]

def colorfulVars : List String :=
  ["--chart-color-1", "--chart-color-2", "--chart-color-3",
    "--chart-color-4", "--chart-color-5", "--chart-color-6"]

inductive Palette where
  | neon
  | colorful
  | monochrome
deriving DecidableEq, Repr

/-- The props of the final `ChartRenderer` version that feed the dataset
computation (the `opacity` prop is still received — and, in this final
version, locked out by `alphaBase = 1`). -/
structure RendererProps where
  table : DataTable
  chart : ChartKind
  xField : Option String := none
  yField : Option String := none
  y2Field : Option String := none
  colorVar : Option String := none
  customHex : Option String := none
  opacity : Option ℚ := none
  palette : Palette := .neon
  perValueColors : Option (List (String × String)) := none
deriving DecidableEq, Repr

/-- JS truthiness filter on an optional string: `undefined` and `""` are
falsy, any other string is truthy. -/
def truthyStr : Option String → Option String
  | some "" => none
  | o => o

/-- JS `a || b` on optional strings. -/
def jsOrStr (a b : Option String) : Option String :=
  match truthyStr a with
  | some s => some s
  | none => b

/-- The guarded lookup `perValueColors && perValueColors[key]` (a missing
map, a missing key, and an empty-string color are all falsy). -/
def pvLookup (pv : Option (List (String × String))) (k : String) : Option String :=
  match pv with
  | none => none
  | some m =>
    match m.find? (fun q => q.1 = k) with
    | some q => if q.2 = "" then none else some q.2
    | none => none

/-- Model of JS `String(label)` on a cell (number formatting stands in by
the rational's canonical printing; only determinism matters here). -/
def jsStr : Cell → String
  | .str s => s
  | .num q => toString q
  | .null => "null"

/-- `alphaBase` of the final renderer version: locked to 1. -/
def alphaBase : ℚ := 1

/-- Shallow embedding of `fromUser`: custom hex wins, then the chosen CSS
variable, then the given fallback variable. -/
def fromUser (env : CssEnv) (p : RendererProps) (fallbackVar : String) (a : ℚ) : ResolvedColor :=
  match truthyStr p.customHex with
  | some c => hexToRgba c a
  | none =>
    match truthyStr p.colorVar with
    | some v => hslVar env v (some a)
    | none => hslVar env fallbackVar (some a)

/-- Shallow embedding of `colorFor` (final version): per-value pin, then
custom hex, then chosen variable, then the palette cycle (colorful /
monochrome / neon). -/
def colorFor (env : CssEnv) (p : RendererProps) (index : Nat) (label : Cell) (a : ℚ) :
    ResolvedColor :=
  let key := jsStr label
  match pvLookup p.perValueColors key with
  | some c => hexToRgba c a
  | none =>
    match truthyStr p.customHex with
    | some c => hexToRgba c a
    | none =>
      match truthyStr p.colorVar with
      | some v => hslVar env v (some a)
      | none =>
        match p.palette with
        | .colorful => hslVar env (colorfulVars.getD (index % colorfulVars.length) "") (some a)
        | .monochrome =>
          hslVar env "--primary"
            (some (max (1/20) (min 1 (a * (6/10 + ((index % 6 : Nat) : ℚ) * (7/100))))))
        | .neon => hslVar env (neonVars.getD (index % neonVars.length) "") (some a)

/-! ### Dataset mapping (final `ChartRenderer` version) -/

def extractNumericColumns (t : DataTable) : List String :=
  t.headers.filter (fun h => t.rows.any (fun r => isNumCell (getCell r h)))

def extractCategoricalColumns (t : DataTable) : List String :=
  t.headers.filter (fun h => t.rows.any (fun r => isStrCell (getCell r h)))

/-- Property read through a possibly-undefined column name. -/
def getCellO (r : Row) (h : Option String) : Cell :=
  match h with
  | some s => getCell r s
  | none => .null

/-- `c ?? d`. -/
def jsNullish (c d : Cell) : Cell :=
  match c with
  | .null => d
  | c => c

/-- `x = xField || catCols[0] || table.headers[0]`. -/
def xCol (p : RendererProps) : Option String :=
  jsOrStr p.xField (jsOrStr (extractCategoricalColumns p.table).head? p.table.headers.head?)

/-- `y = yField || numericCols[0] || table.headers[1]`. -/
def yCol (p : RendererProps) : Option String :=
  jsOrStr p.yField (jsOrStr (extractNumericColumns p.table).head? (p.table.headers.get? 1))

/-- `labels = table.rows.map((r, i) => r[x] ?? "Row " + (i+1))`. -/
def chartLabels (p : RendererProps) : List Cell :=
  p.table.rows.enum.map (fun q =>
    jsNullish (getCellO q.2 (xCol p)) (.str ("Row " ++ toString (q.1 + 1))))

/-- `values = table.rows.map(r => typeof r[y] === "number" ? r[y] : NaN)`
(`none` models NaN). -/
def chartValues (p : RendererProps) : List (Option ℚ) :=
  p.table.rows.map (fun r =>
    match getCellO r (yCol p) with
    | .num q => some q
    | _ => none)

/-- `labels.map((lbl, i) => colorFor(i, lbl, a))`. -/
def labelColors (env : CssEnv) (p : RendererProps) (a : ℚ) : List ResolvedColor :=
  (chartLabels p).enum.map (fun q => colorFor env p q.1 q.2 a)

/-- JS truthiness of a cell value (0, "" and nullish are falsy). -/
def truthyCell : Cell → Bool
  | .num q => q ≠ 0
  | .str s => s ≠ ""
  | .null => false

/-- `c || d` on cell values. -/
def jsOrCell (c d : Cell) : Cell := if truthyCell c then c else d

/-- First-occurrence deduplication, as `Array.from(new Set(...))`. -/
def firstDedupAux (seen : List Cell) : List Cell → List Cell
  | [] => []
  | c :: rest =>
    if c ∈ seen then firstDedupAux seen rest else c :: firstDedupAux (c :: seen) rest

def firstDedup (l : List Cell) : List Cell := firstDedupAux [] l

/-- JS property read through a possibly-undefined key: `r[undefined]`
reads the property literally named `"undefined"` (JS ToPropertyKey), which
a row can possess when a header is literally named `"undefined"`. -/
def getCellK (r : Row) (h : Option String) : Cell :=
  getCell r (h.getD "undefined")

/-- Heatmap x-categories `catCols[0] ? Array.from(new Set(...)) : labels`:
distinct first-categorical-column values when `catCols[0]` is truthy (it
exists and is not the empty-string name), otherwise the raw
(undeduplicated) row labels. -/
def heatmapXCats (p : RendererProps) : List Cell :=
  match truthyStr (extractCategoricalColumns p.table).head? with
  | some c1 => firstDedup (p.table.rows.map (fun r => getCell r c1))
  | none => chartLabels p

/-- Heatmap y-categories `catCols[1] ? Array.from(new Set(...)) : ["Value"]`:
distinct second-categorical-column values when `catCols[1]` is truthy,
otherwise the single synthetic category `"Value"` (also when the second
categorical column is named `""`, which is falsy). -/
def heatmapYCats (p : RendererProps) : List Cell :=
  match truthyStr ((extractCategoricalColumns p.table).get? 1) with
  | some c2 => firstDedup (p.table.rows.map (fun r => getCell r c2))
  | none => [.str "Value"]

/-- The row predicate of the heatmap cell lookup:
`r[catCols[0]] === xc && (!catCols[1] || r[catCols[1]] === yc)`. A missing
`catCols[0]` reads the property literally named `"undefined"`; the
truthiness guard `!catCols[1]` skips the second comparison both when the
second categorical column is missing and when it is named `""`. -/
def heatmapRowMatch (c1 c2 : Option String) (xc yc : Cell) (r : Row) : Bool :=
  (getCellK r c1 = xc) &&
    (match truthyStr c2 with
     | none => true
     | some c => getCell r c = yc)

/-- The heatmap cell value:
`(table.rows.find(match)?.[valueCol] as number) || 0`; the find always
runs, whatever `catCols` holds, and a missing `valueCol` reads the
property named `"undefined"`. -/
def heatmapV (p : RendererProps) (xc yc : Cell) : Cell :=
  jsOrCell
    (match p.table.rows.find?
        (heatmapRowMatch (extractCategoricalColumns p.table).head?
          ((extractCategoricalColumns p.table).get? 1) xc yc) with
     | some r => getCellK r (extractNumericColumns p.table).head?
     | none => .null)
    (.num 0)

/-- The heatmap cell grid `yCats.flatMap((yc, yi) => xCats.map((xc, xi) => ...))`,
each entry `(xIndex, yIndex, value)`. -/
def heatmapCells (p : RendererProps) : List (Nat × Nat × Cell) :=
  (heatmapYCats p).enum.flatMap (fun qy =>
    (heatmapXCats p).enum.map (fun qx => (qx.1, qy.1, heatmapV p qx.2 qy.2)))

/-- The final version's heatmap cell color:
`backgroundColor: (ctx) => fromUser("--chart-neon-3", 1)` — a constant,
independent of the cell value. -/
def heatmapCellColorFinal (env : CssEnv) (p : RendererProps) : ResolvedColor :=
  fromUser env p "--chart-neon-3" 1

/-- The middle version's heatmap cell color (source history):
`base = clamp(v / maxValue)` and `alpha = clamp(base * (opacity ?? 1))`,
both clamped into `[0.05, 1]`; `M` stands for `Math.max(...values) || 1`. -/
def heatmapCellColorMid (env : CssEnv) (p : RendererProps) (v M : ℚ) : ResolvedColor :=
  let base := max (1/20) (min 1 (v / M))
  let a := max (1/20) (min 1 (base * (p.opacity.getD 1)))
  fromUser env p "--chart-neon-3" a

/-- Stable descending insertion: keep walking while the existing element is
strictly larger, so an equal-valued earlier element stays in front. This is
the unique stable order required of `Array.prototype.sort` with the
comparator `(a, b) => b.value - a.value`. -/
def insertDescBy {α : Type} (val : α → ℚ) (x : α) : List α → List α
  | [] => [x]
  | y :: rest => if val x < val y then y :: insertDescBy val x rest else x :: y :: rest

def stableSortDescBy {α : Type} (val : α → ℚ) : List α → List α
  | [] => []
  | x :: rest => insertDescBy val x (stableSortDescBy val rest)

/-- The funnel entries before sorting:
`rows.map((r, i) => ({label: r[x] ?? "Step " + (i+1), value: typeof r[y] === "number" ? r[y] : 0}))`. -/
def funnelEntries (p : RendererProps) : List (Cell × ℚ) :=
  p.table.rows.enum.map (fun q =>
    (jsNullish (getCellO q.2 (xCol p)) (.str ("Step " ++ toString (q.1 + 1))),
     match getCellO q.2 (yCol p) with
     | .num v => v
     | _ => 0))

/-- `sorted = [...entries].sort((a, b) => b.value - a.value)`. -/
def funnelSorted (p : RendererProps) : List (Cell × ℚ) :=
  stableSortDescBy Prod.snd (funnelEntries p)

def funnelLabels (p : RendererProps) : List Cell := (funnelSorted p).map Prod.fst

def funnelValues (p : RendererProps) : List ℚ := (funnelSorted p).map Prod.snd

/-- `backgroundColor: sorted.map((s, i) => colorFor(i, s.label, 1))`. -/
def funnelBg (env : CssEnv) (p : RendererProps) : List ResolvedColor :=
  (funnelSorted p).enum.map (fun q => colorFor env p q.1 q.2.1 1)

/-- `Math.max(...vals) || 1` (only the maximum-zero case is replaced; the
empty spread, `-Infinity` in JS, is queried by no bar and modelled as 1). -/
def jsMaxOr1 : List ℚ → ℚ
  | [] => 1
  | v :: rest => if rest.foldl max v = 0 then 1 else rest.foldl max v

/-- `barThickness` of bar `i`:
`Math.max(24, 48 * ((sorted[i]?.value || 0) / (Math.max(...values) || 1)))`. -/
def funnelThickness (p : RendererProps) (i : Nat) : ℚ :=
  max 24 (48 * ((funnelValues p).getD i 0 / jsMaxOr1 (funnelValues p)))

def funnelThicknessList (p : RendererProps) : List ℚ :=
  (funnelSorted p).enum.map (fun q => funnelThickness p q.1)

/-- Scatter x column: `numericCols[0]` (queried only when it exists). -/
def scatterXNum (p : RendererProps) : String :=
  (extractNumericColumns p.table).getD 0 ""

/-- Scatter y column: `numericCols[1] || numericCols[0]`. -/
def scatterYNum (p : RendererProps) : String :=
  match jsOrStr ((extractNumericColumns p.table).get? 1)
      (extractNumericColumns p.table).head? with
  | some s => s
  | none => ""

def getNum : Cell → ℚ
  | .num q => q
  | _ => 0

/-- The rows kept for the scatter point set: both chosen columns numeric. -/
def scatterRows (p : RendererProps) : List Row :=
  p.table.rows.filter (fun r =>
    isNumCell (getCell r (scatterXNum p)) && isNumCell (getCell r (scatterYNum p)))

def scatterPoints (p : RendererProps) : List (ℚ × ℚ) :=
  (scatterRows p).map (fun r =>
    (getNum (getCell r (scatterXNum p)), getNum (getCell r (scatterYNum p))))

/-- Scatter point colors: `colorFor(i, r[x] ?? "Row " + (i+1), Math.max(0.2, alphaBase))`
over the filtered rows. -/
def scatterBg (env : CssEnv) (p : RendererProps) : List ResolvedColor :=
  (scatterRows p).enum.map (fun q =>
    colorFor env p q.1
      (jsNullish (getCellO q.2 (xCol p)) (.str ("Row " ++ toString (q.1 + 1))))
      (max (2/10) alphaBase))

/-- Combo second series column: `y2 = y2Field || numericCols[1]`, kept only
when truthy. -/
def comboY2 (p : RendererProps) : Option String :=
  truthyStr (jsOrStr p.y2Field ((extractNumericColumns p.table).get? 1))

/-- Combo line series, omitted (`.filter(Boolean)`) when `y2` is falsy:
label, values, border color, background color. -/
def comboLine (env : CssEnv) (p : RendererProps) :
    Option (String × List (Option ℚ) × ResolvedColor × ResolvedColor) :=
  match comboY2 p with
  | none => none
  | some y2 =>
    some (y2,
      p.table.rows.map (fun r =>
        match getCell r y2 with
        | .num q => some q
        | _ => none),
      hslVar env "--chart-neon-1" none,
      hslVar env "--chart-neon-1" (some 1))

/-- The data-relevant part of the dataset the final renderer version hands
to the chart library, per chart kind. -/
inductive ChartData where
  | pie (labels : List Cell) (values : List (Option ℚ)) (bg : List ResolvedColor)
      (border : ResolvedColor)
  | line (labels : List Cell) (values : List (Option ℚ)) (border bg : ResolvedColor)
      (pointBg pointBorder : List ResolvedColor)
  | scatterMsg
  | scatter (xName yName : String) (points : List (ℚ × ℚ)) (bg : List ResolvedColor)
  | heatmap (xCats yCats : List Cell) (cells : List (Nat × Nat × Cell))
      (cellColor : ResolvedColor) (border : ResolvedColor)
  | combo (labels : List Cell) (values : List (Option ℚ)) (bg border : List ResolvedColor)
      (lineSeries : Option (String × List (Option ℚ) × ResolvedColor × ResolvedColor))
  | funnel (labels : List Cell) (values : List ℚ) (bg : List ResolvedColor)
      (thickness : List ℚ)
  | colbar (isBar : Bool) (labels : List Cell) (values : List (Option ℚ))
      (bg border : List ResolvedColor)
deriving DecidableEq, Repr

/-- The dataset computation of the final `ChartRenderer` version, one
branch per chart kind in source order; `column`, `bar` and the remaining
kinds (including `table`) fall through to the column/bar default branch. -/
def chartData (env : CssEnv) (p : RendererProps) : ChartData :=
  if p.chart = .pie then
    .pie (chartLabels p) (chartValues p) (labelColors env p 1)
      (hslVar env "--foreground" (some (15/100)))
  else if p.chart = .line then
    .line (chartLabels p) (chartValues p) (fromUser env p "--chart-neon-1" 1)
      (fromUser env p "--chart-neon-1" 1) (labelColors env p 1) (labelColors env p 1)
  else if p.chart = .scatter then
    if (extractNumericColumns p.table).length = 0 then .scatterMsg
    else .scatter (scatterXNum p) (scatterYNum p) (scatterPoints p) (scatterBg env p)
  else if p.chart = .heatmap then
    .heatmap (heatmapXCats p) (heatmapYCats p) (heatmapCells p)
      (heatmapCellColorFinal env p) (hslVar env "--border" none)
  else if p.chart = .combo then
    .combo (chartLabels p) (chartValues p) (labelColors env p alphaBase)
      (labelColors env p 1) (comboLine env p)
  else if p.chart = .funnel then
    .funnel (funnelLabels p) (funnelValues p) (funnelBg env p) (funnelThicknessList p)
  else
    .colbar (p.chart = .bar) (chartLabels p) (chartValues p)
      (labelColors env p alphaBase) (labelColors env p 1)

/-! ### Google-Sheet URL rewriting (`parseGoogleSheet`) -/

/-- `s.includes(pat)`. -/
def strContains (s pat : String) : Bool := decide (pat.data <:+: s.data)

/-- No JS line terminator (`.` in a regex matches no line terminator). -/
def noLineTerm (l : List Char) : Bool := l.all (fun c => c ≠ '\n' && c ≠ '\r')

/-- The capture of the first `/gid=(\d+)/` match: the maximal digit run
after the first `gid=` that is followed by at least one digit. -/
def findGid : List Char → Option (List Char)
  | [] => none
  | c :: rest =>
    if "gid=".data.isPrefixOf (c :: rest) then
      let ds := ((c :: rest).drop 4).takeWhile Char.isDigit
      if ds = [] then findGid rest else some ds
    else findGid rest

/-- `url.replace(/\/edit.*$/, "/export?format=csv&gid=" + gid)`: the regex
matches at the first `/edit` whose remainder contains no line terminator
(`.*` cannot cross one and `$` anchors to the end); no match leaves the
string unchanged. -/
def replaceEditAux (gid : List Char) : List Char → Option (List Char)
  | [] => none
  | c :: rest =>
    if "/edit".data.isPrefixOf (c :: rest) && noLineTerm ((c :: rest).drop 5) then
      some ("/export?format=csv&gid=".data ++ gid)
    else (replaceEditAux gid rest).map (fun t => c :: t)

/-- Shallow embedding of the URL rewriting in `parseGoogleSheet`. -/
def rewriteSheetUrl (url : String) : String :=
  let u := jsTrim url
  let gid := (findGid u.data).getD ['0']
  if strContains u "/edit" then
    match replaceEditAux gid u.data with
    | some l => String.mk l
    | none => u
  else if strContains u "export?format=csv" then u
  else u ++ (if strContains u "?" then "&" else "?") ++ "format=csv"

/-- The characters before the first occurrence of `pat`. -/
def beforeFirst (pat : List Char) : List Char → List Char
  | [] => []
  | c :: rest => if pat.isPrefixOf (c :: rest) then [] else c :: beforeFirst pat rest

/-- The URL-rewriting rule exactly as the specification sentence states it,
applied to the given URL: everything from `/edit` onward replaced by the
CSV export suffix with the extracted (or default `0`) gid; else a
`format=csv` query parameter appended unless CSV export is already
requested. Stated separately from the source embedding so the two can be
compared. -/
def claimRewrite (u : String) : String :=
  let gid := (findGid u.data).getD ['0']
  if strContains u "/edit" then
    String.mk (beforeFirst "/edit".data u.data ++ "/export?format=csv&gid=".data ++ gid)
  else if strContains u "export?format=csv" then u
  else u ++ (if strContains u "?" then "&" else "?") ++ "format=csv"

/-! ### Theorems -/

theorem dropWhile_dropWhile_self {α : Type} (p : α → Bool) (l : List α) :
    (l.dropWhile p).dropWhile p = l.dropWhile p := by
  induction l with
  | nil => rfl
  | cons a t ih =>
    by_cases h : p a
    · simpa [List.dropWhile_cons, h] using ih
    · simp [List.dropWhile_cons, h]

theorem trimList_eq_rdropWhile (l : List Char) :
    trimList l = (l.dropWhile isWS).rdropWhile isWS := rfl

theorem trimList_idem (l : List Char) : trimList (trimList l) = trimList l := by
  rw [trimList_eq_rdropWhile, trimList_eq_rdropWhile]
  have h1 : ((l.dropWhile isWS).rdropWhile isWS).dropWhile isWS
      = (l.dropWhile isWS).rdropWhile isWS := by
    rw [List.dropWhile_eq_self_iff]
    intro hl
    have hpre := List.rdropWhile_prefix isWS (l.dropWhile isWS)
    have hlen : 0 < (l.dropWhile isWS).length :=
      lt_of_lt_of_le hl hpre.length_le
    have hget := hpre.getElem (n := 0) hl
    rw [List.get_eq_getElem, hget]
    have := List.dropWhile_get_zero_not isWS l hlen
    rwa [List.get_eq_getElem] at this
  rw [h1, List.rdropWhile_idempotent]

theorem jsTrim_idem (s : String) : jsTrim (jsTrim s) = jsTrim s := by
  unfold jsTrim
  exact congrArg String.mk (trimList_idem s.data)

theorem jsNumber_comma_example :
    jsNumber (stripCommas (jsTrim "1,234.5")) = some (2469 / 2 : ℚ) := by
  have h1 : jsNumber (stripCommas (jsTrim "1,234.5"))
      = some ((digitsVal ['1', '2', '3', '4'] : ℚ) +
          (digitsVal ['5'] : ℚ) / (10 : ℚ) ^ (['5'] : List Char).length) := rfl
  have d1 : digitsVal ['1', '2', '3', '4'] = 1234 := by decide
  have d2 : digitsVal ['5'] = 5 := by decide
  rw [h1, d1, d2]
  norm_num

theorem toNumberIfPossible_comma_example :
    toNumberIfPossible (.vstr "1,234.5") = .num (2469 / 2) := by
  have hne : jsTrim "1,234.5" ≠ "" := by decide
  simp only [toNumberIfPossible, hne, if_false, jsNumber_comma_example]

/-- C2: the shared cell coercion returns `null` on nullish input or text
trimming to the empty string, a number when the comma-stripped trimmed
text parses as a number (in particular `"1,234.5"` gives `1234.5` both
through the delimited-text row builder and the spreadsheet row builder,
which call the same function), the trimmed text as a string otherwise,
and it is idempotent on its own output. -/
theorem toNumberIfPossible_spec :
    (toNumberIfPossible .vnull = .null ∧ toNumberIfPossible .vundef = .null) ∧
    (∀ q : ℚ, toNumberIfPossible (.vnum q) = .num q) ∧
    (∀ s : String, jsTrim s = "" → toNumberIfPossible (.vstr s) = .null) ∧
    (∀ s : String, jsTrim s ≠ "" → ∀ q : ℚ,
      jsNumber (stripCommas (jsTrim s)) = some q → toNumberIfPossible (.vstr s) = .num q) ∧
    (∀ s : String, jsTrim s ≠ "" →
      jsNumber (stripCommas (jsTrim s)) = none → toNumberIfPossible (.vstr s) = .str (jsTrim s)) ∧
    (getCell (buildRow [some "h"] [some "1,234.5"]) "h" = .num (2469 / 2) ∧
      getCell (xlsxBuildRow ["h"] (fun _ => .vstr "1,234.5")) "h" = .num (2469 / 2)) ∧
    (∀ v : JSValue, toNumberIfPossible (jsOfCell (toNumberIfPossible v)) = toNumberIfPossible v) := by
  have hcsv : getCell (buildRow [some "h"] [some "1,234.5"]) "h"
      = toNumberIfPossible (.vstr "1,234.5") := rfl
  have hxlsx : getCell (xlsxBuildRow ["h"] (fun _ => .vstr "1,234.5")) "h"
      = toNumberIfPossible (.vstr "1,234.5") := rfl
  refine ⟨⟨rfl, rfl⟩, fun q => rfl, ?_, ?_, ?_,
    ⟨hcsv.trans toNumberIfPossible_comma_example,
      hxlsx.trans toNumberIfPossible_comma_example⟩, ?_⟩
  · intro s hs
    simp [toNumberIfPossible, hs]
  · intro s hs q hq
    simp [toNumberIfPossible, hs, hq]
  · intro s hs hq
    simp [toNumberIfPossible, hs, hq]
  · intro v
    match v with
    | .vnull => rfl
    | .vundef => rfl
    | .vnum q => rfl
    | .vstr raw =>
      show toNumberIfPossible (jsOfCell (toNumberIfPossible (.vstr raw))) = _
      by_cases h0 : jsTrim raw = ""
      · simp [toNumberIfPossible, h0, jsOfCell]
      · rcases hn : jsNumber (stripCommas (jsTrim raw)) with _ | q
        · have ht := jsTrim_idem raw
          simp [toNumberIfPossible, h0, if_false, hn, jsOfCell, ht]
        · simp [toNumberIfPossible, h0, hn, jsOfCell]

/-- Witness for the coercion theorem at a concrete input. -/
theorem toNumberIfPossible_spec_witness :
    toNumberIfPossible (.vstr " abc ") = .str "abc" :=
  toNumberIfPossible_spec.2.2.2.2.1 " abc " (by decide) (by decide)

theorem enumFrom_headerName_eq (header : List (Option String)) (hnn : none ∉ header) :
    ∀ n, (List.enumFrom n header).map (fun p => headerName p.2 p.1)
      = header.map (fun h => h.getD "col") := by
  induction header with
  | nil => intro n; rfl
  | cons h t ih =>
    intro n
    have hh : h ≠ none := fun he => hnn (he ▸ List.mem_cons_self h t)
    have ht : none ∉ t := fun he => hnn (List.mem_cons_of_mem h he)
    match h, hh with
    | some s, _ =>
      simp only [List.enumFrom, List.map_cons, headerName, Option.getD_some]
      exact congrArg (s :: ·) (ih ht (n + 1))

theorem foldl_objSet_keys (g : Nat × Option String → Cell) :
    ∀ (l : List (Nat × Option String)) (acc : Row),
      (acc.map Prod.fst ++ l.map (fun p => headerName p.2 p.1)).Nodup →
      (l.foldl (fun row p => objSet row (headerName p.2 p.1) (g p)) acc).map Prod.fst
        = acc.map Prod.fst ++ l.map (fun p => headerName p.2 p.1) := by
  intro l
  induction l with
  | nil => intro acc _; simp
  | cons p t ih =>
    intro acc h
    have hnotin : headerName p.2 p.1 ∉ acc.map Prod.fst := by
      intro hmem
      rcases (List.nodup_append.mp (by simpa using h)) with ⟨_, _, hdisj⟩
      exact hdisj hmem (List.mem_cons_self _ _)
    have hcond : acc.any (fun q => q.1 = headerName p.2 p.1) = false := by
      rw [List.any_eq_false]
      intro q hq
      simp only [decide_eq_true_eq]
      exact fun heq => hnotin (List.mem_map.mpr ⟨q, hq, heq⟩)
    have hobj : objSet acc (headerName p.2 p.1) (g p)
        = acc ++ [(headerName p.2 p.1, g p)] := by
      unfold objSet
      rw [hcond]
      simp
    simp only [List.foldl_cons, hobj]
    have hnodup2 : ((acc ++ [(headerName p.2 p.1, g p)]).map Prod.fst ++
        t.map (fun q => headerName q.2 q.1)).Nodup := by
      simpa [List.append_assoc] using h
    have := ih (acc ++ [(headerName p.2 p.1, g p)]) hnodup2
    rw [this]
    simp [List.append_assoc]

/-- C5 counterexample: the delimited-text table builder (shared by the CSV
parser and the fetched-sheet parser) keeps duplicate header names, so
`headers` can contain duplicates; and an empty header string is kept
verbatim rather than replaced by a synthetic `col_<index>` name. -/
theorem mkDelimTable_dup_counterexample :
    ¬ (mkDelimTable [some "a", some "a"] [[some "1", some "2"]]).headers.Nodup ∧
      (mkDelimTable [some ""] []).headers = [""] := by
  constructor
  · intro h
    have : ¬ ("a" :: ["a"]).Nodup := by decide
    exact this h
  · rfl

/-- C5 amended: only nullish header entries are replaced by synthetic
names (`"col"` in the headers list, `"col_<index>"` in row keys);
duplicate and empty header strings are kept. When every header entry is
present and the header names are pairwise distinct, the headers list has
no duplicates and every produced row's key sequence equals the headers
sequence exactly. -/
theorem mkDelimTable_headers_unique (header : List (Option String))
    (recs : List (List (Option String)))
    (hnn : none ∉ header)
    (hnd : (header.map (fun h => h.getD "col")).Nodup) :
    (mkDelimTable header recs).headers.Nodup ∧
      ∀ r ∈ (mkDelimTable header recs).rows,
        r.map Prod.fst = (mkDelimTable header recs).headers := by
  have hmapeq : header.enum.map (fun p => headerName p.2 p.1)
      = header.map (fun h => h.getD "col") :=
    enumFrom_headerName_eq header hnn 0
  refine ⟨hnd, ?_⟩
  intro r hr
  rcases List.mem_map.mp hr with ⟨cells, _, hcells⟩
  subst hcells
  show (buildRow header cells).map Prod.fst = _
  unfold buildRow
  have := foldl_objSet_keys
    (fun p => toNumberIfPossible (rawAt cells p.1)) header.enum []
    (by simpa [hmapeq] using hnd)
  simpa [hmapeq] using this

/-- Witness: on a well-formed two-column header the table builder
produces unique headers matched by every row's keys. -/
theorem mkDelimTable_headers_unique_witness :
    (mkDelimTable [some "a", some "b"] [[some "1", some "x"]]).headers.Nodup ∧
      ∀ r ∈ (mkDelimTable [some "a", some "b"] [[some "1", some "x"]]).rows,
        r.map Prod.fst = (mkDelimTable [some "a", some "b"] [[some "1", some "x"]]).headers :=
  mkDelimTable_headers_unique [some "a", some "b"] [[some "1", some "x"]]
    (by decide) (by decide)

/-- C1: `suggestChartType` follows the specified first-match precedence and
never recommends bar, combo, heatmap or funnel. -/
theorem suggestChartType_spec (headers : List String) (rows : List Row) :
    suggestChartType headers rows = advisorSpec headers rows ∧
      suggestChartType headers rows ≠ .bar ∧
      suggestChartType headers rows ≠ .combo ∧
      suggestChartType headers rows ≠ .heatmap ∧
      suggestChartType headers rows ≠ .funnel := by
  refine ⟨rfl, ?_⟩
  unfold suggestChartType
  split
  · simp
  · split
    · simp
    · split
      · simp
      · split <;> simp

/-- C3: `colorFor` resolves with strict first-match precedence: the
per-value pinned color, else the custom literal color, else the chosen
theme variable, else the palette cycle (colorful by `i mod 6`, neon by
`i mod 5`, monochrome varying only the alpha on the fixed `--primary`
hue), and `hslVar` falls back to the fixed default accent `#00e5ff` when
the variable is absent; in particular a label pinned to `#ff0000` resolves
to red regardless of a custom `#00ff00`. -/
theorem colorFor_precedence (env : CssEnv) (p : RendererProps) (i : Nat) (lbl : Cell) (a : ℚ) :
    (∀ c, pvLookup p.perValueColors (jsStr lbl) = some c →
      colorFor env p i lbl a = hexToRgba c a) ∧
    (pvLookup p.perValueColors (jsStr lbl) = none → ∀ c, truthyStr p.customHex = some c →
      colorFor env p i lbl a = hexToRgba c a) ∧
    (pvLookup p.perValueColors (jsStr lbl) = none → truthyStr p.customHex = none →
      ∀ v, truthyStr p.colorVar = some v → colorFor env p i lbl a = hslVar env v (some a)) ∧
    (pvLookup p.perValueColors (jsStr lbl) = none → truthyStr p.customHex = none →
      truthyStr p.colorVar = none →
      ((p.palette = .colorful →
        colorFor env p i lbl a = hslVar env (colorfulVars.getD (i % 6) "") (some a)) ∧
       (p.palette = .neon →
        colorFor env p i lbl a = hslVar env (neonVars.getD (i % 5) "") (some a)) ∧
       (p.palette = .monochrome →
        colorFor env p i lbl a = hslVar env "--primary"
          (some (max (1/20) (min 1 (a * (6/10 + ((i % 6 : Nat) : ℚ) * (7/100))))))))) ∧
    (∀ name al, jsTrim (env name) = "" → hslVar env name al = .hexDefault "#00e5ff") ∧
    (∀ j b, colorFor env
        { p with perValueColors := some [("X", "#ff0000")], customHex := some "#00ff00" }
        j (.str "X") b = .rgba (some 255) (some 0) (some 0) (clamp01 b)) := by
  refine ⟨?_, ?_, ?_, ?_, ?_, ?_⟩
  · intro c hc
    simp [colorFor, hc]
  · intro h0 c hc
    simp [colorFor, h0, hc]
  · intro h0 h1 v hv
    simp [colorFor, h0, h1, hv]
  · intro h0 h1 h2
    refine ⟨fun hp => ?_, fun hp => ?_, fun hp => ?_⟩ <;>
      simp [colorFor, h0, h1, h2, hp, colorfulVars, neonVars]
  · intro name al h
    simp [hslVar, h]
  · intro j b
    rfl

/-- C3 witness: with no per-value pin the custom literal color wins. -/
theorem colorFor_precedence_witness :
    colorFor (fun _ => "") { table := ⟨[], []⟩, chart := .pie, customHex := some "#00ff00" } 0
      (.str "L") 1 = hexToRgba "#00ff00" 1 :=
  (colorFor_precedence (fun _ => "")
    { table := ⟨[], []⟩, chart := .pie, customHex := some "#00ff00" } 0 (.str "L") 1).2.1
    rfl "#00ff00" rfl

/-- C9: with no per-value, custom or theme override, the monochrome
palette keeps the single `--primary` hue and varies only the alpha by a
deterministic function of `i mod 6`, multiplying the caller's alpha by the
step scale and clamping the product into the valid opacity range
`[0.05, 1]`. -/
theorem colorFor_monochrome (env : CssEnv) (p : RendererProps) (i : Nat) (lbl : Cell) (a : ℚ)
    (h1 : pvLookup p.perValueColors (jsStr lbl) = none)
    (h2 : truthyStr p.customHex = none)
    (h3 : truthyStr p.colorVar = none)
    (h4 : p.palette = .monochrome) :
    colorFor env p i lbl a = hslVar env "--primary"
        (some (max (1/20) (min 1 (a * (6/10 + ((i % 6 : Nat) : ℚ) * (7/100)))))) ∧
    colorFor env p i lbl a = colorFor env p (i % 6) lbl a ∧
    ∃ al : ℚ, colorFor env p i lbl a = hslVar env "--primary" (some al) ∧
      1/20 ≤ al ∧ al ≤ 1 := by
  have hmod : i % 6 % 6 = i % 6 := Nat.mod_mod_of_dvd i dvd_rfl
  have e : ∀ j, colorFor env p j lbl a = hslVar env "--primary"
      (some (max (1/20) (min 1 (a * (6/10 + ((j % 6 : Nat) : ℚ) * (7/100)))))) := by
    intro j
    simp [colorFor, h1, h2, h3, h4]
  refine ⟨e i, ?_, ?_⟩
  · rw [e i, e (i % 6), hmod]
  · exact ⟨_, e i, le_max_left _ _, max_le (by norm_num) (min_le_left _ _)⟩

/-- C9 witness: the monochrome alpha at index 7 and caller alpha 1. -/
theorem colorFor_monochrome_witness :
    colorFor (fun _ => "220 10% 60%") { table := ⟨[], []⟩, chart := .pie, palette := .monochrome }
        7 (.str "L") 1
      = hslVar (fun _ => "220 10% 60%") "--primary"
          (some (max (1/20) (min 1 (1 * (6/10 + ((7 % 6 : Nat) : ℚ) * (7/100)))))) :=
  (colorFor_monochrome (fun _ => "220 10% 60%")
    { table := ⟨[], []⟩, chart := .pie, palette := .monochrome } 7 (.str "L") 1
    rfl rfl rfl rfl).1

/-- C10: the dataset computed by the final renderer version — labels,
values and every color, for every chart kind — is independent of the
`opacity` prop: the internal base alpha is the constant 1 and `opacity`
is read by no color computation. -/
theorem chartData_opacity_independent (env : CssEnv) (p : RendererProps) (o₁ o₂ : Option ℚ) :
    chartData env { p with opacity := o₁ } = chartData env { p with opacity := o₂ } := by
  cases p with
  | mk table chart xF yF y2F cv ch op pal pv => cases chart <;> rfl

theorem find?_first {α : Type} (pred : α → Bool) (l₁ l₂ : List α) (r : α)
    (h1 : ∀ x ∈ l₁, pred x = false) (h2 : pred r = true) :
    (l₁ ++ r :: l₂).find? pred = some r := by
  induction l₁ with
  | nil => simp [List.find?_cons, h2]
  | cons a t ih =>
    have ha := h1 a (List.mem_cons_self a t)
    simp only [List.cons_append, List.find?_cons, ha]
    exact ih (fun x hx => h1 x (List.mem_cons_of_mem a hx))

/-- C4 counterexample: with a second categorical column literally named
`""` (the parsers keep empty headers, replacing only nullish ones), the JS
truthiness guard `!catCols[1]` is true, so the lookup matches on the first
categorical column alone and the y-axis collapses to `["Value"]`: the only
row whose two categorical columns equal the pair `("foo", "baz")` carries
the value 2, yet the produced cell value is 1 — the value of the earlier
row matching the first column only — so the claimed pair-match semantics
is false of the program. -/
theorem heatmapV_pair_counterexample :
    (extractCategoricalColumns
        (⟨["a", "", "v"],
          [[("a", .str "foo"), ("", .str "bar"), ("v", .num 1)],
           [("a", .str "foo"), ("", .str "baz"), ("v", .num 2)]]⟩ : DataTable)).get? 1
      = some "" ∧
    heatmapYCats
        { table := ⟨["a", "", "v"],
            [[("a", .str "foo"), ("", .str "bar"), ("v", .num 1)],
             [("a", .str "foo"), ("", .str "baz"), ("v", .num 2)]]⟩,
          chart := .heatmap } = [.str "Value"] ∧
    (∀ r ∈ (⟨["a", "", "v"],
          [[("a", .str "foo"), ("", .str "bar"), ("v", .num 1)],
           [("a", .str "foo"), ("", .str "baz"), ("v", .num 2)]]⟩ : DataTable).rows,
      (getCell r "a" = .str "foo" ∧ getCell r "" = .str "baz") ↔
        getCell r "v" = .num 2) ∧
    heatmapV
        { table := ⟨["a", "", "v"],
            [[("a", .str "foo"), ("", .str "bar"), ("v", .num 1)],
             [("a", .str "foo"), ("", .str "baz"), ("v", .num 2)]]⟩,
          chart := .heatmap }
        (.str "foo") (.str "baz") = .num 1 ∧
    Cell.num 1 ≠ Cell.num 2 := by
  refine ⟨rfl, rfl, by decide, by decide, by decide⟩

/-- C4 amended: the heatmap lookup matches the first categorical column
(reading the row property literally named `"undefined"` when none exists)
and, only when the second categorical column has a truthy non-empty name,
also the second; subject to that predicate the cell value is the first
matching row's numeric value-column (`numericCols[0]`) entry in table
order, defaulting to 0 when no row matches — first-match, no aggregation,
so duplicate matches collapse to the earliest row. -/
theorem heatmapV_first_match_amended (p : RendererProps) (xc yc : Cell) :
    (∀ r' : Row, ∀ c2, truthyStr ((extractCategoricalColumns p.table).get? 1) = some c2 →
      (heatmapRowMatch (extractCategoricalColumns p.table).head?
          ((extractCategoricalColumns p.table).get? 1) xc yc r' = true ↔
        (getCellK r' (extractCategoricalColumns p.table).head? = xc ∧
          getCell r' c2 = yc))) ∧
    (∀ r' : Row, truthyStr ((extractCategoricalColumns p.table).get? 1) = none →
      (heatmapRowMatch (extractCategoricalColumns p.table).head?
          ((extractCategoricalColumns p.table).get? 1) xc yc r' = true ↔
        getCellK r' (extractCategoricalColumns p.table).head? = xc)) ∧
    (p.table.rows.find?
        (heatmapRowMatch (extractCategoricalColumns p.table).head?
          ((extractCategoricalColumns p.table).get? 1) xc yc) = none →
      heatmapV p xc yc = .num 0) ∧
    (∀ r q, p.table.rows.find?
        (heatmapRowMatch (extractCategoricalColumns p.table).head?
          ((extractCategoricalColumns p.table).get? 1) xc yc) = some r →
      getCellK r (extractNumericColumns p.table).head? = .num q →
      heatmapV p xc yc = .num q) ∧
    (∀ l₁ r l₂, p.table.rows = l₁ ++ r :: l₂ →
      (∀ s ∈ l₁, heatmapRowMatch (extractCategoricalColumns p.table).head?
          ((extractCategoricalColumns p.table).get? 1) xc yc s = false) →
      heatmapRowMatch (extractCategoricalColumns p.table).head?
          ((extractCategoricalColumns p.table).get? 1) xc yc r = true →
      ∀ q, getCellK r (extractNumericColumns p.table).head? = .num q →
      heatmapV p xc yc = .num q) := by
  have hval : ∀ r q, getCellK r (extractNumericColumns p.table).head? = .num q →
      jsOrCell (getCellK r (extractNumericColumns p.table).head?) (.num 0) = .num q := by
    intro r q hq
    rw [hq]
    by_cases h0 : q = 0
    · simp [jsOrCell, truthyCell, h0]
    · simp [jsOrCell, truthyCell, h0]
  refine ⟨?_, ?_, ?_, ?_, ?_⟩
  · intro r' c2 hc2
    rw [List.get?_eq_getElem?] at hc2
    simp [heatmapRowMatch, hc2]
  · intro r' hc2
    rw [List.get?_eq_getElem?] at hc2
    simp [heatmapRowMatch, hc2]
  · intro hfind
    simp only [heatmapV, hfind]
    rfl
  · intro r q hfind hq
    simp only [heatmapV, hfind]
    exact hval r q hq
  · intro l₁ r l₂ hrows hpre hr q hq
    have hfind : p.table.rows.find?
        (heatmapRowMatch (extractCategoricalColumns p.table).head?
          ((extractCategoricalColumns p.table).get? 1) xc yc) = some r := by
      rw [hrows]
      exact find?_first _ l₁ l₂ r hpre hr
    simp only [heatmapV, hfind]
    exact hval r q hq

/-- C4 amended witness: two rows share the category pair `("A", "Value")`
with values 5 and 7; the cell resolves to the earlier row's 5. -/
theorem heatmapV_first_match_amended_witness :
    heatmapV
      { table := ⟨["cat", "val"],
          [[("cat", .str "A"), ("val", .num 5)], [("cat", .str "A"), ("val", .num 7)]]⟩,
        chart := .heatmap }
      (.str "A") (.str "Value") = .num 5 :=
  (heatmapV_first_match_amended
    { table := ⟨["cat", "val"],
        [[("cat", .str "A"), ("val", .num 5)], [("cat", .str "A"), ("val", .num 7)]]⟩,
      chart := .heatmap }
    (.str "A") (.str "Value")).2.2.2.2
    [] [("cat", .str "A"), ("val", .num 5)] [[("cat", .str "A"), ("val", .num 7)]]
    rfl (by simp) rfl 5 rfl

/-- C6 counterexample: in the final (most capable) renderer version, the
heatmap cell color is a constant at full opacity — for the concrete table
whose `"B"` cell has value 0 against the column maximum 10, the produced
color is not the intensity-scaled color `clamp(0 / 10) = 0.05` that the
claim requires, and the zero-valued cell is painted exactly like every
other cell. -/
theorem heatmap_final_color_counterexample :
    heatmapV
        { table := ⟨["cat", "val"],
            [[("cat", .str "A"), ("val", .num 10)], [("cat", .str "B"), ("val", .num 0)]]⟩,
          chart := .heatmap }
        (.str "B") (.str "Value") = .num 0 ∧
    heatmapCellColorFinal (fun _ => "190 100% 60%")
        { table := ⟨["cat", "val"],
            [[("cat", .str "A"), ("val", .num 10)], [("cat", .str "B"), ("val", .num 0)]]⟩,
          chart := .heatmap }
      = ResolvedColor.hsl "190 100% 60%" (some 1) ∧
    heatmapCellColorFinal (fun _ => "190 100% 60%")
        { table := ⟨["cat", "val"],
            [[("cat", .str "A"), ("val", .num 10)], [("cat", .str "B"), ("val", .num 0)]]⟩,
          chart := .heatmap }
      ≠ fromUser (fun _ => "190 100% 60%")
          { table := ⟨["cat", "val"],
              [[("cat", .str "A"), ("val", .num 10)], [("cat", .str "B"), ("val", .num 0)]]⟩,
            chart := .heatmap }
          "--chart-neon-3" (max (1/20) (min 1 (0 / 10))) := by
  refine ⟨rfl, rfl, ?_⟩
  have h2 : fromUser (fun _ => "190 100% 60%")
      { table := ⟨["cat", "val"],
          [[("cat", .str "A"), ("val", .num 10)], [("cat", .str "B"), ("val", .num 0)]]⟩,
        chart := .heatmap }
      "--chart-neon-3" (max (1/20) (min 1 (0 / 10)))
      = ResolvedColor.hsl "190 100% 60%" (some (max (1/20) (min 1 (0 / 10)))) := rfl
  rw [h2]
  intro h
  have h3 : (1 : ℚ) = max (1/20) (min 1 (0 / 10)) := by
    have h4 := (ResolvedColor.hsl.injEq _ _ _ _).mp h
    exact Option.some.inj h4.2
  norm_num at h3

/-- C6 amended: the value-scaled alpha clamped into `[0.05, 1]` belongs to
the middle version of the heatmap mapping; in the final version every
heatmap cell's background color is the user/palette-resolved `--chart-neon-3`
color at the constant alpha 1, independent of the cell's value, while the
middle version's color is the same resolved color at an alpha within
`[0.05, 1]` obtained from `clamp(v / maxValue)` times the opacity. -/
theorem heatmap_color_amended (env : CssEnv) (p : RendererProps) (hk : p.chart = .heatmap) :
    chartData env p = .heatmap (heatmapXCats p) (heatmapYCats p) (heatmapCells p)
        (fromUser env p "--chart-neon-3" 1) (hslVar env "--border" none) ∧
    (∀ v M : ℚ, heatmapCellColorMid env p v M
        = fromUser env p "--chart-neon-3"
            (max (1/20) (min 1 (max (1/20) (min 1 (v / M)) * p.opacity.getD 1)))) ∧
    (∀ v M : ℚ, ∃ a : ℚ, heatmapCellColorMid env p v M = fromUser env p "--chart-neon-3" a ∧
      1/20 ≤ a ∧ a ≤ 1) := by
  refine ⟨?_, fun v M => rfl, fun v M => ?_⟩
  · simp [chartData, hk, heatmapCellColorFinal]
  · exact ⟨_, rfl, le_max_left _ _, max_le (by norm_num) (min_le_left _ _)⟩

/-- C6 amended witness: the heatmap dataset branch at a concrete table. -/
theorem heatmap_color_amended_witness :
    chartData (fun _ => "190 100% 60%") { table := ⟨[], []⟩, chart := .heatmap }
      = .heatmap (heatmapXCats { table := ⟨[], []⟩, chart := .heatmap })
          (heatmapYCats { table := ⟨[], []⟩, chart := .heatmap })
          (heatmapCells { table := ⟨[], []⟩, chart := .heatmap })
          (fromUser (fun _ => "190 100% 60%") { table := ⟨[], []⟩, chart := .heatmap }
            "--chart-neon-3" 1)
          (hslVar (fun _ => "190 100% 60%") "--border" none) :=
  (heatmap_color_amended (fun _ => "190 100% 60%")
    { table := ⟨[], []⟩, chart := .heatmap } rfl).1

theorem noLineTerm_drop {l : List Char} (h : noLineTerm l = true) (n : Nat) :
    noLineTerm (l.drop n) = true := by
  rw [noLineTerm, List.all_eq_true] at h ⊢
  exact fun c hc => h c (List.mem_of_mem_drop hc)

theorem noLineTerm_tail {c : Char} {l : List Char} (h : noLineTerm (c :: l) = true) :
    noLineTerm l = true := by
  rw [noLineTerm, List.all_cons, Bool.and_eq_true] at h
  exact h.2

theorem replaceEditAux_eq (gid : List Char) :
    ∀ l : List Char, noLineTerm l = true → "/edit".data <:+: l →
      replaceEditAux gid l
        = some (beforeFirst "/edit".data l ++ "/export?format=csv&gid=".data ++ gid) := by
  intro l
  induction l with
  | nil =>
    intro _ hinf
    have : ("/edit".data : List Char) = [] := List.eq_nil_of_infix_nil hinf
    simp at this
  | cons c rest ih =>
    intro hnt hinf
    by_cases hp : "/edit".data.isPrefixOf (c :: rest) = true
    · have hd : noLineTerm ((c :: rest).drop 5) = true := noLineTerm_drop hnt 5
      simp only [replaceEditAux, beforeFirst, hp, hd, Bool.and_self, if_true,
        List.nil_append]
    · have hps : ¬ ("/edit".data <+: c :: rest) := by
        intro hcon
        have hpre2 : "/edit".data.isPrefixOf (c :: rest) = true :=
          List.isPrefixOf_iff_prefix.mpr hcon
        exact hp hpre2
      have hinf2 : "/edit".data <:+: rest := by
        rcases List.infix_cons_iff.mp hinf with h1 | h2
        · exact absurd h1 hps
        · exact h2
      have hb : (("/edit".data.isPrefixOf (c :: rest)) && noLineTerm ((c :: rest).drop 5))
          = false := by
        rw [Bool.and_eq_false_iff]
        left
        exact Bool.not_eq_true _ ▸ hp
      simp only [replaceEditAux, beforeFirst, hb, if_false, hp,
        ih (noLineTerm_tail hnt) hinf2, Option.map_some, List.cons_append]
      simp

/-- C8 counterexample: the source trims the URL before rewriting, so on an
input with surrounding whitespace the fetched URL differs from the claimed
rule applied to the original URL. -/
theorem rewriteSheetUrl_counterexample :
    rewriteSheetUrl " http://h/x" ≠ claimRewrite " http://h/x" := by decide

/-- C8 amended: the URL is first trimmed of surrounding whitespace, and on
any URL free of embedded line terminators the claimed rule applies exactly
to the trimmed URL: `/edit` onward is replaced by
`/export?format=csv&gid=<id>` with the gid digits extracted from anywhere
in the URL (default `"0"`), else `format=csv` is appended with `?` or `&`
unless CSV export is already requested. (Line terminators matter because
the source regex `/\/edit.*$/` cannot match across them.) -/
theorem rewriteSheetUrl_amended (url : String)
    (h : noLineTerm (jsTrim url).data = true) :
    rewriteSheetUrl url = claimRewrite (jsTrim url) := by
  unfold rewriteSheetUrl claimRewrite
  by_cases hc : strContains (jsTrim url) "/edit" = true
  · have hinf : "/edit".data <:+: (jsTrim url).data := by
      have := hc
      rw [strContains, decide_eq_true_iff] at this
      exact this
    simp only [hc, if_true, replaceEditAux_eq _ _ h hinf]
  · simp only [Bool.not_eq_true] at hc
    simp [hc]

/-- C8 amended witness: a canonical edit URL with a gid fragment. -/
theorem rewriteSheetUrl_amended_witness :
    noLineTerm (jsTrim "https://docs.google.com/spreadsheets/d/abc/edit#gid=123").data = true ∧
    rewriteSheetUrl "https://docs.google.com/spreadsheets/d/abc/edit#gid=123"
      = claimRewrite (jsTrim "https://docs.google.com/spreadsheets/d/abc/edit#gid=123") :=
  ⟨by decide, rewriteSheetUrl_amended _ (by decide)⟩

theorem insertDescBy_perm {α : Type} (val : α → ℚ) (x : α) (l : List α) :
    (insertDescBy val x l).Perm (x :: l) := by
  induction l with
  | nil => exact List.Perm.refl _
  | cons y rest ih =>
    by_cases h : val x < val y
    · simp only [insertDescBy, if_pos h]
      exact (ih.cons y).trans (List.Perm.swap x y rest)
    · simp only [insertDescBy, if_neg h]
      exact List.Perm.refl _

theorem stableSortDescBy_perm {α : Type} (val : α → ℚ) (l : List α) :
    (stableSortDescBy val l).Perm l := by
  induction l with
  | nil => exact List.Perm.refl _
  | cons x rest ih => exact (insertDescBy_perm val x _).trans (ih.cons x)

theorem mem_insertDescBy {α : Type} (val : α → ℚ) (x b : α) (l : List α) :
    b ∈ insertDescBy val x l ↔ b = x ∨ b ∈ l := by
  rw [(insertDescBy_perm val x l).mem_iff, List.mem_cons]

theorem pairwise_insertDescBy {α : Type} (val : α → ℚ) (x : α) (l : List α)
    (h : l.Pairwise (fun a b => val b ≤ val a)) :
    (insertDescBy val x l).Pairwise (fun a b => val b ≤ val a) := by
  induction l with
  | nil => simp [insertDescBy]
  | cons y rest ih =>
    rw [List.pairwise_cons] at h
    obtain ⟨hy, hrest⟩ := h
    by_cases hc : val x < val y
    · simp only [insertDescBy, if_pos hc]
      rw [List.pairwise_cons]
      refine ⟨?_, ih hrest⟩
      intro b hb
      rcases (mem_insertDescBy val x b rest).mp hb with rfl | hbr
      · exact le_of_lt hc
      · exact hy b hbr
    · simp only [insertDescBy, if_neg hc]
      rw [List.pairwise_cons]
      refine ⟨?_, List.pairwise_cons.mpr ⟨hy, hrest⟩⟩
      intro b hb
      rcases List.mem_cons.mp hb with rfl | hbr
      · exact le_of_not_lt hc
      · exact (hy b hbr).trans (le_of_not_lt hc)

theorem stableSortDescBy_sorted {α : Type} (val : α → ℚ) (l : List α) :
    (stableSortDescBy val l).Pairwise (fun a b => val b ≤ val a) := by
  induction l with
  | nil => simp [stableSortDescBy]
  | cons x rest ih => exact pairwise_insertDescBy val x _ ih

theorem pairwise_lex_insertDescBy {α : Type} (val : α → ℚ) (idx : α → Nat) (x : α)
    (l : List α)
    (hl : l.Pairwise (fun a b => val b < val a ∨ (val a = val b ∧ idx a < idx b)))
    (hx : ∀ b ∈ l, idx x < idx b) :
    (insertDescBy val x l).Pairwise
      (fun a b => val b < val a ∨ (val a = val b ∧ idx a < idx b)) := by
  induction l with
  | nil => simp [insertDescBy]
  | cons y rest ih =>
    rw [List.pairwise_cons] at hl
    obtain ⟨hy, hrest⟩ := hl
    by_cases hc : val x < val y
    · simp only [insertDescBy, if_pos hc]
      rw [List.pairwise_cons]
      refine ⟨?_, ih hrest (fun b hb => hx b (List.mem_cons_of_mem y hb))⟩
      intro b hb
      rcases (mem_insertDescBy val x b rest).mp hb with rfl | hbr
      · exact Or.inl hc
      · exact hy b hbr
    · simp only [insertDescBy, if_neg hc]
      rw [List.pairwise_cons]
      have hyx : val y ≤ val x := le_of_not_lt hc
      refine ⟨?_, List.pairwise_cons.mpr ⟨hy, hrest⟩⟩
      intro b hb
      rcases List.mem_cons.mp hb with rfl | hbr
      · rcases lt_or_eq_of_le hyx with hlt | heq
        · exact Or.inl hlt
        · exact Or.inr ⟨heq.symm, hx b (List.mem_cons_self b rest)⟩
      · rcases hy b hbr with hlt | ⟨heq, _⟩
        · exact Or.inl (lt_of_lt_of_le hlt hyx)
        · rcases lt_or_eq_of_le hyx with hylt | hyeq
          · exact Or.inl (heq ▸ hylt)
          · exact Or.inr ⟨hyeq.symm.trans heq, hx b (List.mem_cons_of_mem y hbr)⟩

theorem stableSortDescBy_stable {α : Type} (val : α → ℚ) (idx : α → Nat) (l : List α)
    (hidx : l.Pairwise (fun a b => idx a < idx b)) :
    (stableSortDescBy val l).Pairwise
      (fun a b => val b < val a ∨ (val a = val b ∧ idx a < idx b)) := by
  induction l with
  | nil => simp [stableSortDescBy]
  | cons x rest ih =>
    rw [List.pairwise_cons] at hidx
    obtain ⟨hx, hrest⟩ := hidx
    refine pairwise_lex_insertDescBy val idx x _ (ih hrest) ?_
    intro b hb
    exact hx b ((stableSortDescBy_perm val rest).mem_iff.mp hb)

theorem insertDescBy_map {α β : Type} (val : β → ℚ) (f : α → β) (x : α) (l : List α) :
    insertDescBy val (f x) (l.map f) = (insertDescBy (fun a => val (f a)) x l).map f := by
  induction l with
  | nil => rfl
  | cons y rest ih =>
    by_cases h : val (f x) < val (f y)
    · simp only [List.map_cons, insertDescBy, if_pos h, ih]
    · simp only [List.map_cons, insertDescBy, if_neg h]

theorem stableSortDescBy_map {α β : Type} (val : β → ℚ) (f : α → β) (l : List α) :
    stableSortDescBy val (l.map f) = (stableSortDescBy (fun a => val (f a)) l).map f := by
  induction l with
  | nil => rfl
  | cons x rest ih =>
    simp only [List.map_cons, stableSortDescBy, ih, insertDescBy_map]

theorem le_fst_of_mem_enumFrom {α : Type} {b : Nat × α} {n : Nat} {l : List α}
    (h : b ∈ List.enumFrom n l) : n ≤ b.1 := by
  obtain ⟨i, a⟩ := b
  exact (List.mem_enumFrom h).1

theorem pairwise_fst_lt_enumFrom {α : Type} (l : List α) :
    ∀ n, (List.enumFrom n l).Pairwise (fun a b => a.1 < b.1) := by
  induction l with
  | nil => intro n; simp
  | cons x rest ih =>
    intro n
    rw [List.enumFrom_cons, List.pairwise_cons]
    refine ⟨?_, ih (n + 1)⟩
    intro b hb
    exact lt_of_lt_of_le (Nat.lt_succ_self n) (le_fst_of_mem_enumFrom hb)

theorem le_foldl_max (l : List ℚ) (a : ℚ) :
    a ≤ l.foldl max a ∧ ∀ x ∈ l, x ≤ l.foldl max a := by
  induction l generalizing a with
  | nil => exact ⟨le_refl a, by simp⟩
  | cons y rest ih =>
    simp only [List.foldl_cons]
    refine ⟨le_trans (le_max_left a y) (ih (max a y)).1, ?_⟩
    intro x hx
    rcases List.mem_cons.mp hx with rfl | hx2
    · exact le_trans (le_max_right a x) (ih (max a x)).1
    · exact (ih (max a y)).2 x hx2

theorem funnelThickness_bounds (p : RendererProps)
    (h : funnelValues p = [] ∨ ∃ v ∈ funnelValues p, 0 ≤ v) (i : Nat) :
    24 ≤ funnelThickness p i ∧ funnelThickness p i ≤ 48 := by
  refine ⟨le_max_left _ _, ?_⟩
  rcases hv : funnelValues p with _ | ⟨v0, rest⟩
  · unfold funnelThickness
    rw [hv]
    simp [jsMaxOr1]
    norm_num
  · rcases h with he | ⟨w, hw, hw0⟩
    · rw [hv] at he
      exact absurd he (List.cons_ne_nil _ _)
    have hfold := le_foldl_max rest v0
    have hall : ∀ x ∈ funnelValues p, x ≤ rest.foldl max v0 := by
      rw [hv]
      intro x hx
      rcases List.mem_cons.mp hx with rfl | hx2
      · exact hfold.1
      · exact hfold.2 x hx2
    have hm0 : 0 ≤ rest.foldl max v0 := le_trans hw0 (hall w hw)
    have hvm : (funnelValues p).getD i 0 ≤ rest.foldl max v0 := by
      rw [List.getD_eq_getD_get?]
      rcases hg : (funnelValues p).get? i with _ | w2
      · exact hm0
      · exact hall w2 (List.get?_mem hg)
    unfold funnelThickness
    rw [hv]
    simp only [jsMaxOr1]
    by_cases hmz : rest.foldl max v0 = 0
    · rw [if_pos hmz]
      have hv0 : (funnelValues p).getD i 0 ≤ 0 := hv ▸ (hvm.trans hmz.le)
      have h48 : 48 * ((funnelValues p).getD i 0 / 1) ≤ 48 := by
        rw [div_one]
        nlinarith
      exact max_le (by norm_num) (hv ▸ h48)
    · rw [if_neg hmz]
      have hmpos : 0 < rest.foldl max v0 := lt_of_le_of_ne hm0 (Ne.symm hmz)
      have hdiv : (funnelValues p).getD i 0 / rest.foldl max v0 ≤ 1 :=
        (div_le_one hmpos).mpr hvm
      have h48 : 48 * ((funnelValues p).getD i 0 / rest.foldl max v0) ≤ 48 := by
        nlinarith
      exact max_le (by norm_num) (hv ▸ h48)

/-- C7 counterexample: with the all-negative values `-1, -2` the funnel's
second bar has thickness `max(24, 48 * ((-2) / (-1))) = 96 ∉ [24, 48]`:
`Math.max(...values) || 1` keeps a negative maximum, so `value/maxValue`
exceeds 1. -/
theorem funnel_thickness_counterexample :
    funnelThickness
        { table := ⟨["step", "val"],
            [[("step", .str "A"), ("val", .num (-1))],
             [("step", .str "B"), ("val", .num (-2))]]⟩,
          chart := .funnel } 1 = 96 ∧
    ¬ funnelThickness
        { table := ⟨["step", "val"],
            [[("step", .str "A"), ("val", .num (-1))],
             [("step", .str "B"), ("val", .num (-2))]]⟩,
          chart := .funnel } 1 ≤ 48 := by
  have hvals : funnelValues
      { table := ⟨["step", "val"],
          [[("step", .str "A"), ("val", .num (-1))],
           [("step", .str "B"), ("val", .num (-2))]]⟩,
        chart := .funnel } = [-1, -2] := by decide
  have hmax : jsMaxOr1 [(-1 : ℚ), -2] = -1 := by
    have hm : max (-1 : ℚ) (-2) = -1 := max_eq_left (by norm_num)
    simp only [jsMaxOr1, List.foldl_cons, List.foldl_nil, hm]
    norm_num
  have hget : List.getD [(-1 : ℚ), -2] 1 0 = -2 := rfl
  have h96 : funnelThickness
      { table := ⟨["step", "val"],
          [[("step", .str "A"), ("val", .num (-1))],
           [("step", .str "B"), ("val", .num (-2))]]⟩,
        chart := .funnel } 1 = 96 := by
    unfold funnelThickness
    rw [hvals, hmax, hget]
    have : (-2 : ℚ) / -1 = 2 := by norm_num
    rw [this]
    have : (48 : ℚ) * 2 = 96 := by norm_num
    rw [this]
    exact max_eq_right (by norm_num)
  exact ⟨h96, by rw [h96]; norm_num⟩

/-- C7 amended: the funnel mapping's labels and values come from the rows
stably sorted in descending order of the coerced `y` value — the sorted
list is a permutation of the entries, its values are pairwise descending,
and on index-decorated entries the order is exactly (value descending,
original index ascending), i.e. equal-valued rows keep their original
relative order. Each bar's thickness is
`max(24, 48 * (value / (max || 1)))`, which lies in `[24, 48]` whenever
some value is nonnegative (or the table is empty); with all values
negative it can exceed 48. -/
theorem funnel_sort_thickness (p : RendererProps)
    (h : funnelValues p = [] ∨ ∃ v ∈ funnelValues p, 0 ≤ v) :
    funnelLabels p = (funnelSorted p).map Prod.fst ∧
    funnelValues p = (funnelSorted p).map Prod.snd ∧
    (funnelSorted p).Perm (funnelEntries p) ∧
    (funnelSorted p).Pairwise (fun a b => b.2 ≤ a.2) ∧
    funnelSorted p
      = (stableSortDescBy (fun t => t.2.2) (funnelEntries p).enum).map Prod.snd ∧
    (stableSortDescBy (fun t => t.2.2) (funnelEntries p).enum).Pairwise
      (fun a b => b.2.2 < a.2.2 ∨ (a.2.2 = b.2.2 ∧ a.1 < b.1)) ∧
    ∀ i, 24 ≤ funnelThickness p i ∧ funnelThickness p i ≤ 48 := by
  refine ⟨rfl, rfl, stableSortDescBy_perm _ _, stableSortDescBy_sorted _ _, ?_, ?_,
    funnelThickness_bounds p h⟩
  · have hmap := stableSortDescBy_map (Prod.snd : (Cell × ℚ) → ℚ)
      (Prod.snd : Nat × Cell × ℚ → Cell × ℚ) (funnelEntries p).enum
    rw [List.enum_map_snd] at hmap
    exact hmap
  · exact stableSortDescBy_stable _ Prod.fst _ (pairwise_fst_lt_enumFrom (funnelEntries p) 0)

/-- C7 amended witness: the empty table gives the empty funnel and every
thickness query stays in the bounded range. -/
theorem funnel_sort_thickness_witness :
    24 ≤ funnelThickness { table := ⟨[], []⟩, chart := .funnel } 0 ∧
      funnelThickness { table := ⟨[], []⟩, chart := .funnel } 0 ≤ 48 :=
  (funnel_sort_thickness { table := ⟨[], []⟩, chart := .funnel }
    (Or.inl rfl)).2.2.2.2.2.2 0
